import Mathlib

/-!
Shallow embedding of the ISA-Tab curation utilities in `isatools/utils.py`
(repository `nsoranzo/isa-api`) and proofs about them.

Tables are modelled as a list of column names together with a list of rows,
where each cell is the string the table file holds.  Python list operations
that can raise (`l[i]`, `del l[i]`, `l.index(x)`) are modelled as
`Option`-valued functions; a `none` result stands for the raised exception.
-/

namespace IsaUtils

/-! ### Python string primitives used by the source -/

/-- Model of Python `p in s` (substring test) on strings, via character lists. -/
def strContains (s pat : String) : Bool :=
  go s.toList
where
  go : List Char → Bool
    | [] => pat.toList.isPrefixOf ([] : List Char)
    | c :: t => pat.toList.isPrefixOf (c :: t) || go t

/-- Model of Python `s.startswith(p)` via character lists. -/
def strStartsWith (s pat : String) : Bool :=
  pat.toList.isPrefixOf s.toList

/-- Model of Python `s.endswith(p)` via character lists. -/
def strEndsWith (s pat : String) : Bool :=
  pat.toList.reverse.isPrefixOf s.toList.reverse

/-- Model of Python `s[s.rindex('.') + 1:]` guarded by the `try`/`except
ValueError` in `clean_isatab_field_names`: the part after the last dot when
a dot occurs, otherwise the string unchanged. -/
def afterLastDot (s : String) : String :=
  if '.' ∈ s.toList then
    ((s.toList.reverse.takeWhile (fun c => c ≠ '.')).reverse).asString
  else s

/-! ### Python list primitives -/

/-- Model of Python `l.insert(i, x)` for a non-negative index: inserts before
position `i`, appending at the end when `i ≥ len(l)`. -/
def pyInsert (l : List α) (i : Nat) (x : α) : List α :=
  l.take i ++ x :: l.drop i

/-- Model of Python `del l[i]` for a non-negative index; `none` models the
`IndexError` raised when `i` is out of range. -/
def pyDelete (l : List α) (i : Nat) : Option (List α) :=
  if i < l.length then some (l.take i ++ l.drop (i + 1)) else none

/-- Model of Python `l[i]` for a non-negative index; `none` models the
`IndexError` raised when `i` is out of range. -/
def pyGetIdx (l : List α) (i : Nat) : Option α :=
  l.get? i

/-- Model of Python `l[i] = x` for a non-negative index; `none` models the
`IndexError` raised when `i` is out of range. -/
def pySetIdx (l : List α) (i : Nat) (x : α) : Option (List α) :=
  if i < l.length then some (l.set i x) else none

/-- Model of Python `l.index(x)`: the position of the first occurrence;
`none` models the `ValueError` raised when `x` does not occur. -/
def pyListIndex [BEq α] (l : List α) (x : α) : Option Nat :=
  l.indexOf? x

/-! ### `recast_columns` (claim C8) -/

/-- Translation of `recast_columns` from `isatools/utils.py`.  The Python
code folds `casting_map.items()` over the column list with one `map` per
item; dicts iterate in insertion order, so the three passes run in the
order `Material Type`, `Date`, `Performer`. -/
def recast_columns (columns : List String) : List String :=
  (((columns.map
      (fun x => if x = "Material Type" then "Characteristics[Material Type]" else x)).map
      (fun x => if x = "Date" then "Parameter Value[Date]" else x)).map
      (fun x => if x = "Performer" then "Parameter Value[Performer]" else x))

/-- The claim's description of `recast_columns`: a single elementwise
replacement that keeps length and order. -/
def recastColumnsSpec (columns : List String) : List String :=
  columns.map (fun x =>
    if x = "Material Type" then "Characteristics[Material Type]"
    else if x = "Date" then "Parameter Value[Date]"
    else if x = "Performer" then "Parameter Value[Performer]"
    else x)

/-! ### Experimental graphs and process pooling (claims C2 and C7) -/

/-- A node of an experimental graph.  `isProcess` models the Python
`isinstance(n, Process)` test; `id` is the node's identifier string. -/
structure ExpNode where
  id : String
  isProcess : Bool
  deriving Repr, DecidableEq

/-- A directed experimental graph.  Nodes are identified by their position
in `nodes`; an edge `(u, v)` is directed from the node at position `u` to
the node at position `v`, as in a `networkx.DiGraph`. -/
structure ExpGraph where
  nodes : List ExpNode
  edges : List (Nat × Nat)
  deriving Repr, DecidableEq

/-- Translation of `detect_graph_process_pooling` from `isatools/utils.py`:
iterate the `Process` nodes in node-enumeration order and collect the id of
each one with more than one incoming edge (`len(G.in_edges(process)) > 1`). -/
def detect_graph_process_pooling (G : ExpGraph) : List String :=
  (((G.nodes.enum.filter (fun p => p.2.isProcess)).filter
      (fun p => 1 < (G.edges.filter (fun e => e.2 == p.1)).length)).map
      (fun p => p.2.id))

/-- The number of edges of `G` entering the node at position `k`. -/
def inDegree (G : ExpGraph) (k : Nat) : Nat :=
  (G.edges.filter (fun e => e.2 == k)).length

/-- The claim's description of `detect_graph_process_pooling`: the ids of
exactly those nodes that are `Process` instances with in-degree strictly
greater than one, in node-enumeration order. -/
def poolingSpec (G : ExpGraph) : List String :=
  ((G.nodes.enum.filter (fun p => p.2.isProcess && decide (1 < inDegree G p.1))).map
      (fun p => p.2.id))

/-! ### Loaded investigations for `detect_isatab_process_pooling` (claim C7) -/

/-- An assay as `detect_isatab_process_pooling` sees it: a table filename
and the assay's experimental graph. -/
structure AssayG where
  filename : String
  graph : ExpGraph
  deriving Repr

/-- A study as `detect_isatab_process_pooling` sees it: a table filename,
the study's experimental graph, and its assays in load order. -/
structure StudyG where
  filename : String
  graph : ExpGraph
  assays : List AssayG
  deriving Repr

/-- A loaded investigation: its studies in load order. -/
structure InvestigationG where
  studies : List StudyG
  deriving Repr

/-- Translation of `detect_isatab_process_pooling` from `isatools/utils.py`:
for each study in load order, append `{filename: pooling_list}` when the
study's pooling list is non-empty, then do the same for each of the study's
assays in order.  An entry is modelled as a filename/list pair. -/
def detect_isatab_process_pooling (isa : InvestigationG) :
    List (String × List String) :=
  isa.studies.foldl
    (fun report study =>
      let pooling_list := detect_graph_process_pooling study.graph
      let report :=
        if 0 < pooling_list.length then
          report ++ [(study.filename, pooling_list)]
        else report
      study.assays.foldl
        (fun rep assay =>
          let pooling_list := detect_graph_process_pooling assay.graph
          if 0 < pooling_list.length then
            rep ++ [(assay.filename, pooling_list)]
          else rep)
        report)
    []

/-- The units visited by `detect_isatab_process_pooling`, each paired with
its pooling list: every study followed by its own assays, in load order. -/
def poolingUnits (isa : InvestigationG) : List (String × List String) :=
  isa.studies.flatMap (fun study =>
    (study.filename, detect_graph_process_pooling study.graph) ::
      study.assays.map (fun assay =>
        (assay.filename, detect_graph_process_pooling assay.graph)))

/-- The claim's description of the report: among the visited units, in that
order, exactly those whose pooling list is non-empty. -/
def poolingReportSpec (isa : InvestigationG) : List (String × List String) :=
  (poolingUnits isa).filter (fun entry => !entry.2.isEmpty)

/-! ### `batch_fix_isatabs` (claim C9) -/

/-- One fix description, as in the usage example in the docstring of
`batch_fix_isatabs`: a dict with keys `factor` and `protocol_ref`, where
`protocol_ref` may be `None`. -/
structure FixSetting where
  factor : Option String
  protocol_ref : Option String
  deriving Repr, DecidableEq

/-- Model of the Python expression `l[key]` where `l` is a list and `key`
is a string: list indices must be integers, so the lookup always raises
`TypeError`.  The success type is what the code would receive were the
value a dict. -/
def pyListGetItemStr (_l : List FixSetting) (_key : String) :
    Except String (Option String) :=
  .error "TypeError: list indices must be integers or slices, not str"

/-- Translation of `batch_fix_isatabs` from `isatools/utils.py` on a
settings mapping of the shape shown in its own docstring (each table file
path maps to a *list* of fix descriptions).  The result pairs the list of
fixes that were actually applied (as `(path, factor_name, protocol_ref)`
triples handed to `IsaTabFixer.fix_factor`) with the error raised, if
any.  For each path the code evaluates `settings[path]['factor']` and
`settings[path]['protocol_ref']` before calling `fix_factor`. -/
def batch_fix_isatabs :
    List (String × List FixSetting) →
      List (String × Option String × Option String) × Option String :=
  go []
where
  go (applied : List (String × Option String × Option String)) :
      List (String × List FixSetting) →
        List (String × Option String × Option String) × Option String
    | [] => (applied, none)
    | (path, fixes) :: rest =>
      match pyListGetItemStr fixes "factor" with
      | .error e => (applied, some e)
      | .ok factor_name =>
        match pyListGetItemStr fixes "protocol_ref" with
        | .error e => (applied, some e)
        | .ok protocol_ref =>
          go (applied ++ [(path, factor_name, protocol_ref)]) rest

/-! ### The guarded `IOError` in
`IsaTabFixer.replace_factor_with_protocol_parameter_value` (claim C10) -/

/-- Python exception kinds raised by the code under study. -/
inductive PyErr where
  | valueError
  | indexError
  | ioError
  deriving Repr, DecidableEq

/-- Model of the lambda `x[1:-1] if x[0] == '"' and x[-1] == '"' else x`
applied to one cell: on the empty string, `x[0]` raises `IndexError`. -/
def unquoteCell (x : String) : Except PyErr String :=
  if x.toList.isEmpty then .error .indexError
  else if x.toList.head? = some '"' ∧ x.toList.getLast? = some '"' then
    .ok ((x.toList.drop 1).dropLast.asString)
  else .ok x

/-- Model of `list(map(unquote, cells))`: the first raised exception
propagates. -/
def unquoteAll : List String → Except PyErr (List String)
  | [] => .ok []
  | x :: t =>
    match unquoteCell x with
    | .error e => .error e
    | .ok y =>
      match unquoteAll t with
      | .error e => .error e
      | .ok ys => .ok (y :: ys)

/-- Model of Python `l.index(x)` as used at line 759-761: the (integer)
position of the first occurrence, or a raised `ValueError`. -/
def pyListIndexInt (l : List String) (x : String) : Except PyErr Int :=
  match pyListIndex l x with
  | none => .error .valueError
  | some n => .ok (n : Int)

/-- Translation of lines 756-761 of `isatools/utils.py`: split the first
data row on tabs, strip surrounding double quotes from each cell, and look
up `protocol_ref` with `list.index`. -/
def protocol_ref_index_of_line (line1 protocol_ref : String) :
    Except PyErr Int :=
  match unquoteAll (line1.splitOn "\t") with
  | .error e => .error e
  | .ok cells => pyListIndexInt cells protocol_ref

/-- Translation of lines 756-766 of `isatools/utils.py`: compute
`protocol_ref_index` and then raise `IOError` when it is negative. -/
def replace_factor_protocol_guard (line1 protocol_ref : String) :
    Except PyErr Int :=
  match protocol_ref_index_of_line line1 protocol_ref with
  | .error e => .error e
  | .ok protocol_ref_index =>
    if protocol_ref_index < 0 then .error .ioError
    else .ok protocol_ref_index

/-! ### `create_isatab_archive` (claims C3 and C4)

The filesystem of the investigation's directory is modelled as the list
`fs` of names of the files it contains.  `inv_filename` is the basename of
the open investigation file. -/

/-- An assay as `create_isatab_archive` sees it. -/
structure ArchAssay where
  filename : String
  measurement_type : String
  data_files : List String
  deriving Repr, DecidableEq

/-- A study as `create_isatab_archive` sees it. -/
structure ArchStudy where
  filename : String
  assays : List ArchAssay
  deriving Repr, DecidableEq

/-- A loaded investigation as `create_isatab_archive` sees it. -/
structure ArchInvestigation where
  studies : List ArchStudy
  deriving Repr, DecidableEq

/-- The assay selection of `create_isatab_archive`: all assays when no
measurement filter is given, otherwise those whose measurement type term
equals the filter. -/
def selected_assays (filter_by_measurement : Option String)
    (s : ArchStudy) : List ArchAssay :=
  match filter_by_measurement with
  | none => s.assays
  | some m => s.assays.filter (fun a => a.measurement_type = m)

/-- The data-file names collected by the first loop of
`create_isatab_archive`, study by study over the selected assays. -/
def all_files_in_isatab (isa : ArchInvestigation)
    (filter_by_measurement : Option String) : List String :=
  isa.studies.flatMap (fun s =>
    (selected_assays filter_by_measurement s).flatMap (fun a => a.data_files))

/-- The `found_files` list: the collected data-file names that exist in
the investigation's directory. -/
def found_files (isa : ArchInvestigation)
    (filter_by_measurement : Option String) (fs : List String) :
    List String :=
  (all_files_in_isatab isa filter_by_measurement).filter
    (fun f => fs.contains f)

/-- The `missing_files` list: the collected data-file names not among the
found ones. -/
def missing_files (isa : ArchInvestigation)
    (filter_by_measurement : Option String) (fs : List String) :
    List String :=
  (all_files_in_isatab isa filter_by_measurement).filter
    (fun f => !(found_files isa filter_by_measurement fs).contains f)

/-- The value of the Python variable `selected_assays` when the zip loop
runs: whatever the first loop left in it, i.e. the selection of the *last*
study (empty when there are no studies, in which case the zip loop never
reads it). -/
def last_selected_assays (isa : ArchInvestigation)
    (filter_by_measurement : Option String) : List ArchAssay :=
  match isa.studies.getLast? with
  | none => []
  | some s => selected_assays filter_by_measurement s

/-- The archive names written by the zip loop of `create_isatab_archive`,
in order: the investigation file, then for each study its table file
followed by the table files of `selected_assays` (the stale loop
variable), then every collected data file. -/
def archive_member_names (isa : ArchInvestigation) (inv_filename : String)
    (filter_by_measurement : Option String) : List String :=
  inv_filename ::
    (isa.studies.flatMap (fun s =>
      s.filename ::
        (last_selected_assays isa filter_by_measurement).map
          (fun a => a.filename)))
    ++ all_files_in_isatab isa filter_by_measurement

/-- Outcome of `create_isatab_archive`: a returned value or a raised
exception. -/
inductive ArchiveOutcome where
  | ret (v : Option (List String))
  | exn
  deriving Repr, DecidableEq

/-- Translation of `create_isatab_archive` from `isatools/utils.py`.  The
second component records whether the target ZIP file was created (opening
`ZipFile(..., mode='w')` creates it even if a later write raises).  A
`ZipFile.write` call raises when its source file does not exist. -/
def create_isatab_archive (isa : ArchInvestigation) (inv_filename : String)
    (filter_by_measurement : Option String) (fs : List String) :
    ArchiveOutcome × Bool :=
  if (missing_files isa filter_by_measurement fs).isEmpty then
    if (archive_member_names isa inv_filename filter_by_measurement).all
        (fun f => fs.contains f) then
      (.ret (some (archive_member_names isa inv_filename
        filter_by_measurement)), true)
    else (.exn, true)
  else (.ret none, false)

end IsaUtils

namespace IsaUtils

/-! ### The study design report of `IsaTabAnalyzer` (claims C5 and C6)

A merged study-assay dataframe is modelled by its column-name list
`columns` and its rows, each row a list of cell strings aligned with
`columns`. -/

/-- The `factor_cols` selection in `generate_study_design_report`: the
columns whose name starts with `Factor Value`. -/
def factor_cols (columns : List String) : List String :=
  columns.filter (fun c => strStartsWith c "Factor Value")

/-- A row of `merged_df[factor_cols]`: the cells of the factor columns, in
column order. -/
def projFactorRow (columns row : List String) : List String :=
  (columns.zip row).filterMap
    (fun p => if strStartsWith p.1 "Factor Value" then some p.2 else none)

/-- Model of pandas `drop_duplicates`: keep the first occurrence of each
row, in order. -/
def dropDupFirst [DecidableEq α] : List α → List α
  | [] => []
  | a :: t => a :: dropDupFirst (t.filter (fun b => b ≠ a))
termination_by l => l.length
decreasing_by
  simp only [List.length_cons]
  exact Nat.lt_succ_of_le (List.length_filter_le _ t)

/-- The rows of `study_group_factors_df`:
`merged_df[factor_cols].drop_duplicates()`. -/
def study_group_rows (columns : List String) (rows : List (List String)) :
    List (List String) :=
  dropDupFirst (rows.map (projFactorRow columns))

/-- The `total_study_groups` entry of an assay report: `len(queries)`,
where one query is built per row of `study_group_factors_df`.  The entry
is only set when at least one factor column exists. -/
def total_study_groups (columns : List String) (rows : List (List String)) :
    Option Nat :=
  if (factor_cols columns).isEmpty then none
  else some (study_group_rows columns rows).length

/-- The factor name extracted from a factor column header by `x[13:-1]`
(strip the 13-character prefix `Factor Value[` and the final `]`). -/
def strip_factor_name (c : String) : String :=
  ((c.toList.drop 13).dropLast).asString

/-- The `factors_list` of `generate_study_design_report`: the stripped
names of the factor columns. -/
def factors_list (columns : List String) : List String :=
  (factor_cols columns).map strip_factor_name

/-- The values added to the level set of factor key `f`: iterating the
deduplicated `study_group_factors_df` rows, each `(x, y)` pair of
`zip(factors_list, row)` with `x = f` contributes `y` (rows are cell
strings, so Python's `str(y)` is the identity here). -/
def level_values (columns : List String) (rows : List (List String))
    (f : String) : List String :=
  (study_group_rows columns rows).flatMap
    (fun r => ((factors_list columns).zip r).filterMap
      (fun p => if p.1 = f then some p.2 else none))

/-- The `num_levels` reported for factor key `f` in `factors_and_levels`:
the size of the set of values added for `f`.  The dict has an entry for
`f` exactly when some pair with key `f` was processed, i.e. when
`level_values` is non-empty; and the whole `factors_and_levels` section is
only built when a factor column exists. -/
def num_levels_report (columns : List String) (rows : List (List String))
    (f : String) : Option Nat :=
  if (factor_cols columns).isEmpty then none
  else if (level_values columns rows f).isEmpty then none
  else some ((level_values columns rows f).toFinset.card)

/-- The claim's notion of the values occurring in column `c` of the merged
table. -/
def column_values (columns : List String) (rows : List (List String))
    (c : String) : List String :=
  rows.flatMap (fun r => (columns.zip r).filterMap
    (fun p => if p.1 = c then some p.2 else none))

/-! ### `IsaTabFixer.replace_factor_with_source_characteristic` (claim C1) -/

/-- Model of Python `str.lower` for the ASCII header names the code
handles. -/
def charLower (c : Char) : Char :=
  if 'A' ≤ c ∧ c ≤ 'Z' then Char.ofNat (c.toNat + 32) else c

/-- Lowercase a string character by character. -/
def strLower (s : String) : String :=
  (s.toList.map charLower).asString

/-- Model of Python `s.replace(pat, rep)` (all non-overlapping occurrences,
left to right) on character lists; the fuel argument is the length of the
remaining input, which bounds the recursion. -/
def pyReplaceFuel (pat rep : List Char) : Nat → List Char → List Char
  | _, [] => []
  | 0, l => l
  | fuel + 1, c :: t =>
    if !pat.isEmpty && pat.isPrefixOf (c :: t) then
      rep ++ pyReplaceFuel pat rep fuel ((c :: t).drop pat.length)
    else c :: pyReplaceFuel pat rep fuel t

/-- Model of Python `s.replace(pat, rep)` for a non-empty pattern. -/
def pyStrReplace (s pat rep : String) : String :=
  (pyReplaceFuel pat.toList rep.toList s.toList.length s.toList).asString

/-- Translation of the per-element rules of
`IsaTabFixer.clean_isatab_field_names`. -/
def clean_field_name (field_name : String) : String :=
  if strStartsWith field_name "Term Source REF" then "Term Source REF"
  else if strStartsWith field_name "Term Accession Number" then
    "Term Accession Number"
  else if strStartsWith field_name "Unit" then "Unit"
  else if strContains field_name "Characteristics[" then
    (if strContains (strLower field_name) "material type" then
      "Material Type"
     else afterLastDot field_name)
  else if strContains field_name "Factor Value[" then
    afterLastDot field_name
  else if strContains field_name "Parameter Value[" then
    afterLastDot field_name
  else if strEndsWith field_name "Date" then "Date"
  else if strEndsWith field_name "Performer" then "Performer"
  else if strContains field_name "Protocol REF" then "Protocol REF"
  else if strStartsWith field_name "Sample Name." then "Sample Name"
  else field_name

/-- Translation of `IsaTabFixer.clean_isatab_field_names`: each header is
rewritten independently. -/
def clean_isatab_field_names (field_names : List String) : List String :=
  field_names.map clean_field_name

/-- The `Term Source REF`/`Term Accession` branch of
`replace_factor_with_source_characteristic`: three inserts after
`Source Name`, then three deletes at the commented positions. -/
def branch_move_with_terms (fns : List String) (i s : Nat) :
    Option (List String) := do
  let v0 ← pyGetIdx fns i
  let fns := pyInsert fns (s + 1) v0
  let v1 ← pyGetIdx fns (i + 1 + 1)
  let fns := pyInsert fns (s + 2) v1
  let v2 ← pyGetIdx fns (i + 2 + 2)
  let fns := pyInsert fns (s + 3) v2
  let fns ← pyDelete fns (i + 3)
  let fns ← pyDelete fns (i + 1 + 2)
  let fns ← pyDelete fns (i + 2 + 1)
  some fns

/-- The `Unit`/`Term Source REF`/`Term Accession` branch: four inserts,
four deletes. -/
def branch_move_with_unit_terms (fns : List String) (i s : Nat) :
    Option (List String) := do
  let v0 ← pyGetIdx fns i
  let fns := pyInsert fns (s + 1) v0
  let v1 ← pyGetIdx fns (i + 1 + 1)
  let fns := pyInsert fns (s + 2) v1
  let v2 ← pyGetIdx fns (i + 2 + 2)
  let fns := pyInsert fns (s + 3) v2
  let v3 ← pyGetIdx fns (i + 3 + 3)
  let fns := pyInsert fns (s + 4) v3
  let fns ← pyDelete fns (i + 4)
  let fns ← pyDelete fns (i + 1 + 3)
  let fns ← pyDelete fns (i + 2 + 2)
  let fns ← pyDelete fns (i + 3 + 1)
  some fns

/-- The `Unit`-only branch: two inserts, two deletes. -/
def branch_move_with_unit (fns : List String) (i s : Nat) :
    Option (List String) := do
  let v0 ← pyGetIdx fns i
  let fns := pyInsert fns (s + 1) v0
  let v1 ← pyGetIdx fns (i + 1 + 1)
  let fns := pyInsert fns (s + 2) v1
  let fns ← pyDelete fns (i + 2)
  let fns ← pyDelete fns (i + 1 + 1)
  some fns

/-- The plain branch (`move only the Factor Value column`): one insert
after `Source Name`, then `del field_names[factor_index]`. -/
def branch_move_only (fns : List String) (i s : Nat) :
    Option (List String) := do
  let v0 ← pyGetIdx fns i
  let fns := pyInsert fns (s + 1) v0
  let fns ← pyDelete fns i
  some fns

/-- Evaluation of the second, third and fourth branch guards, reached when
the first guard is false: `'Unit' in field_names[factor_index+1]` decides
between the unit branches and the plain branch, re-reading
`field_names[factor_index+2]` and `field_names[factor_index+3]` lazily as
the Python `elif` chain does. -/
def branches_unit_or_plain (fns : List String) (i s : Nat) (c1 : String) :
    Option (List String) := do
  if strContains c1 "Unit" then do
    let c2 ← pyGetIdx fns (i + 2)
    if strContains c2 "Term Source REF" then do
      let c3 ← pyGetIdx fns (i + 3)
      if strContains c3 "Term Accession" then
        branch_move_with_unit_terms fns i s
      else
        branch_move_with_unit fns i s
    else
      branch_move_with_unit fns i s
  else
    branch_move_only fns i s

/-- Translation of
`IsaTabFixer.replace_factor_with_source_characteristic` restricted to what
it does to the header list: clean the headers (the Python function mutates
the list in place, so `field_names` and `clean_field_names` alias), locate
`Factor Value[factor_name]` and `Source Name` with `list.index`, reorder
via the matching branch, clean again, rewrite the header after
`Source Name` with `str.replace('Factor Value', 'Characteristics')`, and
clean once more.  `none` models a raised `ValueError` or `IndexError`. -/
def replace_factor_with_source_characteristic (field_names0 : List String)
    (factor_name : String) : Option (List String) := do
  let field_names := clean_isatab_field_names field_names0
  let factor_index ← pyListIndex field_names
    ("Factor Value[" ++ factor_name ++ "]")
  let source_name_index ← pyListIndex field_names "Source Name"
  let c1 ← pyGetIdx field_names (factor_index + 1)
  let moved ←
    if strContains c1 "Term Source REF" then do
      let c2 ← pyGetIdx field_names (factor_index + 2)
      if strContains c2 "Term Accession" then
        branch_move_with_terms field_names factor_index source_name_index
      else
        branches_unit_or_plain field_names factor_index source_name_index c1
    else
      branches_unit_or_plain field_names factor_index source_name_index c1
  let columns := clean_isatab_field_names moved
  let cur ← pyGetIdx columns (source_name_index + 1)
  let columns2 ← pySetIdx columns (source_name_index + 1)
    (pyStrReplace cur "Factor Value" "Characteristics")
  some (clean_isatab_field_names columns2)

/-! ### Theorems for claims C8 and C2 -/

/-- Claim C8: `recast_columns` returns a list of the same length and
order in which `Material Type`, `Date` and `Performer` are replaced by
their `Characteristics`/`Parameter Value` forms and every other element
is unchanged. -/
theorem recast_columns_eq_spec (columns : List String) :
    recast_columns columns = recastColumnsSpec columns := by
  unfold recast_columns recastColumnsSpec
  simp only [List.map_map]
  refine List.map_congr_left (fun x _ => ?_)
  by_cases h1 : x = "Material Type" <;>
    by_cases h2 : x = "Date" <;>
      by_cases h3 : x = "Performer" <;>
        simp [Function.comp, h1, h2, h3]

/-- Claim C2: `detect_graph_process_pooling` returns the ids of exactly
the `Process` nodes with in-degree strictly greater than one, in
node-enumeration order; other nodes contribute nothing. -/
theorem detect_pooling_eq_spec (G : ExpGraph) :
    detect_graph_process_pooling G = poolingSpec G := by
  unfold detect_graph_process_pooling poolingSpec inDegree
  rw [List.filter_filter]
  simp only [Bool.and_comm]

/-! ### Theorem for claim C7 -/

theorem assays_foldl_report (assays : List AssayG)
    (acc : List (String × List String)) :
    assays.foldl
      (fun rep assay =>
        let pooling_list := detect_graph_process_pooling assay.graph
        if 0 < pooling_list.length then
          rep ++ [(assay.filename, pooling_list)]
        else rep)
      acc
    = acc ++ (assays.map
        (fun a => (a.filename, detect_graph_process_pooling a.graph))).filter
          (fun e => 0 < e.2.length) := by
  induction assays generalizing acc with
  | nil => simp
  | cons a t ih =>
      simp only [List.foldl_cons, List.map_cons, List.filter_cons, ih]
      by_cases h : 0 < (detect_graph_process_pooling a.graph).length
      · simp [h]
      · simp [h]

theorem studies_foldl_report (studies : List StudyG)
    (acc : List (String × List String)) :
    studies.foldl
      (fun report study =>
        let pooling_list := detect_graph_process_pooling study.graph
        let report :=
          if 0 < pooling_list.length then
            report ++ [(study.filename, pooling_list)]
          else report
        study.assays.foldl
          (fun rep assay =>
            let pooling_list := detect_graph_process_pooling assay.graph
            if 0 < pooling_list.length then
              rep ++ [(assay.filename, pooling_list)]
            else rep)
          report)
      acc
    = acc ++ (studies.flatMap (fun study =>
        (study.filename, detect_graph_process_pooling study.graph) ::
          study.assays.map (fun assay =>
            (assay.filename, detect_graph_process_pooling assay.graph)))).filter
        (fun e => 0 < e.2.length) := by
  induction studies generalizing acc with
  | nil => simp
  | cons s t ih =>
      rw [List.foldl_cons, ih]
      simp only [assays_foldl_report, List.flatMap_cons, List.filter_append,
        List.filter_cons]
      by_cases h : 0 < (detect_graph_process_pooling s.graph).length
      · simp [h]
      · simp [h]

/-- Claim C7: for every investigation, the report of
`detect_isatab_process_pooling` contains an entry mapping a study's or
assay's filename to its pooling list exactly when that list is non-empty,
with each study's entry preceding its assays' entries, and studies and
assays visited in load order. -/
theorem detect_isatab_process_pooling_eq_spec (isa : InvestigationG) :
    detect_isatab_process_pooling isa = poolingReportSpec isa := by
  unfold detect_isatab_process_pooling poolingReportSpec poolingUnits
  rw [studies_foldl_report]
  simp only [List.nil_append]
  have hfun : (fun e : String × List String => decide (0 < e.2.length))
      = (fun e : String × List String => !e.2.isEmpty) := by
    funext e
    cases h : e.2 <;> simp
  rw [hfun]

/-! ### Theorems for claim C5 -/

theorem mem_dropDupFirst [DecidableEq α] (a : α) (l : List α) :
    a ∈ dropDupFirst l ↔ a ∈ l := by
  induction l using dropDupFirst.induct with
  | case1 => simp [dropDupFirst]
  | case2 b t ih =>
      rw [dropDupFirst]
      simp only [List.mem_cons, ih, List.mem_filter]
      constructor
      · rintro (h | ⟨h1, _⟩)
        · exact Or.inl h
        · exact Or.inr h1
      · intro h
        by_cases hab : a = b
        · exact Or.inl hab
        · rcases h with h | h
          · exact Or.inl h
          · exact Or.inr ⟨h, by simpa using hab⟩

theorem nodup_dropDupFirst [DecidableEq α] (l : List α) :
    (dropDupFirst l).Nodup := by
  induction l using dropDupFirst.induct with
  | case1 => simp [dropDupFirst]
  | case2 b t ih =>
      rw [dropDupFirst]
      refine List.nodup_cons.mpr ⟨?_, ih⟩
      intro hmem
      have hb := (mem_dropDupFirst b _).mp hmem
      simp [List.mem_filter] at hb

theorem toFinset_dropDupFirst [DecidableEq α] (l : List α) :
    (dropDupFirst l).toFinset = l.toFinset := by
  ext x
  simp [mem_dropDupFirst]

theorem length_dropDupFirst [DecidableEq α] (l : List α) :
    (dropDupFirst l).length = l.toFinset.card := by
  rw [← toFinset_dropDupFirst, List.toFinset_card_of_nodup (nodup_dropDupFirst l)]

/-- Claim C5: when the merged table has at least one `Factor Value`
column, the reported `total_study_groups` is the number of distinct rows
of the projection of the merged table onto its factor columns. -/
theorem total_study_groups_eq_distinct (columns : List String)
    (rows : List (List String)) (h : factor_cols columns ≠ []) :
    total_study_groups columns rows
      = some ((rows.map (projFactorRow columns)).toFinset.card) := by
  unfold total_study_groups study_group_rows
  rw [if_neg (by simpa [List.isEmpty_iff] using h), length_dropDupFirst]

theorem total_study_groups_witness :
    factor_cols ["Sample Name", "Factor Value[dose]"] ≠ [] ∧
    total_study_groups ["Sample Name", "Factor Value[dose]"]
        [["s1", "low"], ["s2", "high"], ["s3", "low"]]
      = some ((([["s1", "low"], ["s2", "high"], ["s3", "low"]]
          : List (List String)).map
            (projFactorRow ["Sample Name", "Factor Value[dose]"])).toFinset.card) :=
  ⟨by decide,
   total_study_groups_eq_distinct ["Sample Name", "Factor Value[dose]"]
     [["s1", "low"], ["s2", "high"], ["s3", "low"]] (by decide)⟩

/-! ### Theorems for claim C6 -/

theorem filterMap_if_eq_map_filter {α β : Type} (P : α → Bool) (g : α → β)
    (l : List α) :
    l.filterMap (fun a => if P a then some (g a) else none)
      = (l.filter P).map g := by
  induction l with
  | nil => rfl
  | cons x t ih =>
      by_cases h : P x = true <;>
        simp [List.filterMap_cons, List.filter_cons, h, ih]

theorem zip_filter_fst {α β : Type} (P : α → Bool) :
    ∀ (cs : List α) (rs : List β), rs.length = cs.length →
      ((cs.zip rs).filter (fun p => P p.1)).map Prod.fst = cs.filter P := by
  intro cs
  induction cs with
  | nil => intro rs _; simp
  | cons a t ih =>
      intro rs hlen
      cases rs with
      | nil => simp at hlen
      | cons b u =>
          simp only [List.zip_cons_cons, List.filter_cons]
          by_cases hP : P a = true
          · simp [hP, ih u (by simpa using hlen)]
          · simp [hP, ih u (by simpa using hlen)]

theorem strip_factor_value_name (g : String) :
    strip_factor_name ("Factor Value[" ++ g ++ "]") = g := by
  unfold strip_factor_name
  have hdata : ∀ s : String, s.toList = s.data := fun _ => rfl
  have h1 : ("Factor Value[" ++ g ++ "]").toList
      = "Factor Value[".toList ++ (g.toList ++ [']']) := by
    rw [hdata, hdata, hdata, String.data_append, String.data_append,
      show ("]" : String).data = [']'] from rfl, List.append_assoc]
  rw [h1, show (13 : Nat) = "Factor Value[".toList.length from rfl,
    List.drop_left, List.dropLast_concat]
  exact String.asString_toList g

theorem startsWith_factor_value (g : String) :
    strStartsWith ("Factor Value[" ++ g ++ "]") "Factor Value" = true := by
  unfold strStartsWith
  rw [ List.isPrefixOf_iff_prefix]
  have hdata : ∀ s : String, s.toList = s.data := fun _ => rfl
  have h1 : ("Factor Value[" ++ g ++ "]").toList
      = "Factor Value".toList ++ ('[' :: (g.toList ++ [']'])) := by
    rw [hdata, hdata, hdata, String.data_append, String.data_append,
      show ("]" : String).data = [']'] from rfl,
      show ("Factor Value[" : String).data
        = ("Factor Value" : String).data ++ ['['] from rfl,
      List.append_assoc, List.append_assoc]
    rfl
  rw [h1]
  exact ⟨_, rfl⟩

theorem level_row_eq (columns r : List String) (f : String)
    (hlen : r.length = columns.length)
    (hwf : ∀ c ∈ columns, strStartsWith c "Factor Value" = true →
        c = "Factor Value[" ++ strip_factor_name c ++ "]") :
    ((factors_list columns).zip (projFactorRow columns r)).filterMap
        (fun p => if p.1 = f then some p.2 else none)
      = (columns.zip r).filterMap
        (fun p => if p.1 = "Factor Value[" ++ f ++ "]" then some p.2
                  else none) := by
  have hproj : projFactorRow columns r
      = ((columns.zip r).filter
          (fun p => strStartsWith p.1 "Factor Value")).map Prod.snd :=
    filterMap_if_eq_map_filter _ _ _
  have hnames : factors_list columns
      = ((columns.zip r).filter
          (fun p => strStartsWith p.1 "Factor Value")).map
            (fun p => strip_factor_name p.1) := by
    unfold factors_list factor_cols
    rw [← zip_filter_fst (fun c => strStartsWith c "Factor Value")
      columns r hlen, List.map_map]
    rfl
  rw [hproj, hnames, List.zip_map', List.filterMap_map,
    List.filterMap_filter]
  refine List.filterMap_congr (fun p hp => ?_)
  have hc : p.1 ∈ columns := (List.of_mem_zip hp).1
  by_cases hP : strStartsWith p.1 "Factor Value" = true
  · by_cases hs : strip_factor_name p.1 = f
    · have hcol : p.1 = "Factor Value[" ++ f ++ "]" := by
        rw [hwf p.1 hc hP, hs]
      simp [Function.comp, hP, hs, hcol, startsWith_factor_value,
        strip_factor_value_name]
    · have hcol : p.1 ≠ "Factor Value[" ++ f ++ "]" := by
        intro hfe
        exact hs (by rw [hfe, strip_factor_value_name])
      simp [Function.comp, hP, hs, hcol]
  · have hcol : p.1 ≠ "Factor Value[" ++ f ++ "]" := by
      intro hfe
      rw [hfe] at hP
      exact hP (startsWith_factor_value f)
    simp [Function.comp, hP, hcol]

theorem level_values_toFinset (columns : List String)
    (rows : List (List String)) (f : String)
    (hlen : ∀ r ∈ rows, r.length = columns.length)
    (hwf : ∀ c ∈ columns, strStartsWith c "Factor Value" = true →
        c = "Factor Value[" ++ strip_factor_name c ++ "]") :
    (level_values columns rows f).toFinset
      = (column_values columns rows
          ("Factor Value[" ++ f ++ "]")).toFinset := by
  unfold level_values column_values study_group_rows
  ext x
  simp only [List.mem_toFinset, List.mem_flatMap, mem_dropDupFirst,
    List.mem_map]
  constructor
  · rintro ⟨q, ⟨r, hr, rfl⟩, hx⟩
    exact ⟨r, hr, by rwa [level_row_eq columns r f (hlen r hr) hwf] at hx⟩
  · rintro ⟨r, hr, hx⟩
    refine ⟨projFactorRow columns r, ⟨r, hr, rfl⟩, ?_⟩
    rw [level_row_eq columns r f (hlen r hr) hwf]
    exact hx

theorem exists_zip_mem {α β : Type} (c : α) :
    ∀ (cs : List α) (rs : List β), c ∈ cs → rs.length = cs.length →
      ∃ v, (c, v) ∈ cs.zip rs := by
  intro cs
  induction cs with
  | nil => intro rs hc _; exact absurd hc (by simp)
  | cons a t ih =>
      intro rs hc hlen
      cases rs with
      | nil => simp at hlen
      | cons b u =>
          rcases List.mem_cons.mp hc with rfl | hct
          · exact ⟨b, by simp⟩
          · rcases ih u hct (by simpa using hlen) with ⟨w, hw⟩
            exact ⟨w, by simp [hw]⟩

theorem level_values_ne_nil (columns : List String)
    (rows : List (List String)) (f : String)
    (hmem : ("Factor Value[" ++ f ++ "]") ∈ columns)
    (hlen : ∀ r ∈ rows, r.length = columns.length)
    (hrows : rows ≠ [])
    (hwf : ∀ c ∈ columns, strStartsWith c "Factor Value" = true →
        c = "Factor Value[" ++ strip_factor_name c ++ "]") :
    level_values columns rows f ≠ [] := by
  obtain ⟨r0, rest, rfl⟩ : ∃ a l, rows = a :: l := by
    cases rows with
    | nil => exact absurd rfl hrows
    | cons a l => exact ⟨a, l, rfl⟩
  obtain ⟨v, hv⟩ := exists_zip_mem _ columns r0 hmem (hlen r0 (by simp))
  have hvmem : v ∈ (columns.zip r0).filterMap
      (fun p => if p.1 = "Factor Value[" ++ f ++ "]" then some p.2
                else none) :=
    List.mem_filterMap.mpr ⟨_, hv, by simp⟩
  unfold level_values study_group_rows
  have hddf : projFactorRow columns r0
      ∈ dropDupFirst ((r0 :: rest).map (projFactorRow columns)) := by
    rw [mem_dropDupFirst]
    exact List.mem_map.mpr ⟨r0, by simp, rfl⟩
  have hrow : v ∈ ((factors_list columns).zip
      (projFactorRow columns r0)).filterMap
        (fun p => if p.1 = f then some p.2 else none) := by
    rw [level_row_eq columns r0 f (hlen r0 (by simp)) hwf]
    exact hvmem
  exact List.ne_nil_of_mem
    (List.mem_flatMap.mpr ⟨projFactorRow columns r0, hddf, hrow⟩)

/-- Claim C6: for every factor `f` with a column `Factor Value[f]` in a
well-formed merged table, the `num_levels` reported for `f` equals the
number of distinct (string) values occurring in that column. -/
theorem num_levels_report_eq_distinct (columns : List String)
    (rows : List (List String)) (f : String)
    (hmem : ("Factor Value[" ++ f ++ "]") ∈ columns)
    (hlen : ∀ r ∈ rows, r.length = columns.length)
    (hrows : rows ≠ [])
    (hwf : ∀ c ∈ columns, strStartsWith c "Factor Value" = true →
        c = "Factor Value[" ++ strip_factor_name c ++ "]") :
    num_levels_report columns rows f
      = some ((column_values columns rows
          ("Factor Value[" ++ f ++ "]")).toFinset.card) := by
  unfold num_levels_report
  have hfc : ¬(factor_cols columns).isEmpty = true := by
    rw [List.isEmpty_iff]
    exact List.ne_nil_of_mem
      (List.mem_filter.mpr ⟨hmem, startsWith_factor_value f⟩)
  rw [if_neg hfc]
  have hne : ¬(level_values columns rows f).isEmpty = true := by
    rw [List.isEmpty_iff]
    exact level_values_ne_nil columns rows f hmem hlen hrows hwf
  rw [if_neg hne, level_values_toFinset columns rows f hlen hwf]

theorem num_levels_report_witness :
    ("Factor Value[" ++ "dose" ++ "]")
        ∈ (["Sample Name", "Factor Value[dose]"] : List String)
    ∧ num_levels_report ["Sample Name", "Factor Value[dose]"]
        [["s1", "low"], ["s2", "high"], ["s3", "low"]] "dose"
      = some ((column_values ["Sample Name", "Factor Value[dose]"]
          [["s1", "low"], ["s2", "high"], ["s3", "low"]]
          ("Factor Value[" ++ "dose" ++ "]")).toFinset.card) :=
  ⟨by decide,
   num_levels_report_eq_distinct ["Sample Name", "Factor Value[dose]"]
     [["s1", "low"], ["s2", "high"], ["s3", "low"]] "dose"
     (by decide) (by decide) (by decide) (by decide)⟩

/-! ### Theorems for claims C3 and C4 -/

theorem missing_files_isEmpty_iff (isa : ArchInvestigation)
    (filt : Option String) (fs : List String) :
    (missing_files isa filt fs).isEmpty = true
      ↔ ∀ f ∈ all_files_in_isatab isa filt, f ∈ fs := by
  unfold missing_files found_files
  simp [List.isEmpty_iff, List.mem_filter]
  constructor
  · intro h f hf
    exact (h f hf).2
  · intro h f hf
    exact ⟨hf, h f hf⟩

theorem mem_selected_assays (filt : Option String) (s : ArchStudy)
    (a : ArchAssay) (h : a ∈ selected_assays filt s) : a ∈ s.assays := by
  unfold selected_assays at h
  cases filt with
  | none => exact h
  | some m => exact List.mem_of_mem_filter h

theorem mem_last_selected_assays (isa : ArchInvestigation)
    (filt : Option String) (a : ArchAssay)
    (h : a ∈ last_selected_assays isa filt) :
    ∃ s ∈ isa.studies, a ∈ s.assays := by
  unfold last_selected_assays at h
  rcases hl : isa.studies.getLast? with _ | s <;> rw [hl] at h
  · exact absurd h (by simp)
  · exact ⟨s, List.mem_of_getLast?_eq_some hl, mem_selected_assays filt s a h⟩

/-- Claim C4: `create_isatab_archive` returns `None` and creates no
archive whenever a data file referenced by the selected assays is absent;
when every referenced data file is present (and the investigation, study
and assay table files exist, as they must for `isatab.load` to have
succeeded) it writes the archive and returns its member-name list. -/
theorem create_isatab_archive_missing_gate (isa : ArchInvestigation)
    (inv_filename : String) (filt : Option String) (fs : List String) :
    ((∃ f ∈ all_files_in_isatab isa filt, f ∉ fs) →
        create_isatab_archive isa inv_filename filt fs = (.ret none, false))
    ∧ ((∀ f ∈ all_files_in_isatab isa filt, f ∈ fs) →
        inv_filename ∈ fs →
        (∀ s ∈ isa.studies, s.filename ∈ fs) →
        (∀ s ∈ isa.studies, ∀ a ∈ s.assays, a.filename ∈ fs) →
        create_isatab_archive isa inv_filename filt fs
          = (.ret (some (archive_member_names isa inv_filename filt)),
             true)) := by
  constructor
  · intro h
    rcases h with ⟨f, hf, hnot⟩
    unfold create_isatab_archive
    have hne : ¬ (missing_files isa filt fs).isEmpty = true := by
      rw [missing_files_isEmpty_iff]
      intro hall
      exact hnot (hall f hf)
    rw [if_neg hne]
  · intro hdata hinv hstudy hassay
    unfold create_isatab_archive
    rw [if_pos ((missing_files_isEmpty_iff isa filt fs).mpr hdata)]
    have hall : (archive_member_names isa inv_filename filt).all
        (fun f => fs.contains f) = true := by
      rw [List.all_eq_true]
      intro x hx
      unfold archive_member_names at hx
      rw [List.elem_iff]
      rcases (by simpa using hx :
          x = inv_filename ∨
            (∃ s ∈ isa.studies, x = s.filename ∨
              ∃ a ∈ last_selected_assays isa filt, a.filename = x) ∨
            x ∈ all_files_in_isatab isa filt) with hx1 | hx2 | hx3
      · exact hx1 ▸ hinv
      · rcases hx2 with ⟨s, hs, hx5 | ⟨a, ha, hax⟩⟩
        · exact hx5 ▸ hstudy s hs
        · rcases mem_last_selected_assays isa filt a ha with ⟨s', hs', ha'⟩
          exact hax ▸ hassay s' hs' a ha'
      · exact hdata x hx3
    rw [if_pos hall]

/-- Claim C3 is violated: with two studies, the zip loop reuses the stale
`selected_assays` variable from the collection loop, so it writes the last
study's assay files for every study and never writes the first study's
assay file `a_1.txt`, even though that assay passes the (absent) filter
and all referenced files exist. -/
theorem create_isatab_archive_drops_first_study_assay :
    create_isatab_archive
      { studies := [ { filename := "s_1.txt",
                       assays := [ { filename := "a_1.txt",
                                     measurement_type := "metabolite profiling",
                                     data_files := [] } ] },
                     { filename := "s_2.txt", assays := [] } ] }
      "i_Investigation.txt" none
      ["i_Investigation.txt", "s_1.txt", "s_2.txt", "a_1.txt"]
    = (.ret (some ["i_Investigation.txt", "s_1.txt", "s_2.txt"]), true)
    ∧ "a_1.txt" ∉ (["i_Investigation.txt", "s_1.txt", "s_2.txt"] : List String) := by
  constructor
  · rfl
  · decide

theorem create_isatab_archive_missing_gate_witness :
    create_isatab_archive
      { studies := [ { filename := "s_1.txt",
                       assays := [ { filename := "a_1.txt",
                                     measurement_type := "metabolite profiling",
                                     data_files := ["d_1.raw"] } ] } ] }
      "i_Investigation.txt" none ["i_Investigation.txt", "s_1.txt", "a_1.txt"]
      = (.ret none, false)
    ∧ create_isatab_archive
      { studies := [ { filename := "s_1.txt",
                       assays := [ { filename := "a_1.txt",
                                     measurement_type := "metabolite profiling",
                                     data_files := ["d_1.raw"] } ] } ] }
      "i_Investigation.txt" none
      ["i_Investigation.txt", "s_1.txt", "a_1.txt", "d_1.raw"]
      = (.ret (some (archive_member_names
          { studies := [ { filename := "s_1.txt",
                           assays := [ { filename := "a_1.txt",
                                         measurement_type := "metabolite profiling",
                                         data_files := ["d_1.raw"] } ] } ] }
          "i_Investigation.txt" none)), true) :=
  ⟨(create_isatab_archive_missing_gate _ "i_Investigation.txt" none
      ["i_Investigation.txt", "s_1.txt", "a_1.txt"]).1
    ⟨"d_1.raw", by decide, by decide⟩,
   (create_isatab_archive_missing_gate _ "i_Investigation.txt" none
      ["i_Investigation.txt", "s_1.txt", "a_1.txt", "d_1.raw"]).2
    (by decide) (by decide) (by decide) (by decide)⟩

/-! ### Theorem for claim C1 -/

/-- Claim C1 is violated: in the plain (no companion columns) branch, the
code inserts a copy of the factor column after `Source Name` but then
executes `del field_names[factor_index]`, which - the list having shifted
right by one - deletes the column *before* the factor column instead of
the moved `Factor Value` column, although the comment on that line says
it deletes the factor column.  On this input the first `Sample Name` column
disappears and `Factor Value[f]` survives next to its renamed copy, so the
output is not a permutation of the cleaned input with the factor column
moved. -/
theorem replace_factor_source_characteristic_wrong_delete :
    replace_factor_with_source_characteristic
        ["Source Name", "Sample Name", "Factor Value[f]", "Sample Name"] "f"
      = some ["Source Name", "Characteristics[f]", "Factor Value[f]",
              "Sample Name"]
    ∧ (["Source Name", "Characteristics[f]", "Factor Value[f]",
        "Sample Name"] : List String).count "Sample Name" = 1
    ∧ (["Source Name", "Sample Name", "Factor Value[f]",
        "Sample Name"] : List String).count "Sample Name" = 2 := by
  refine ⟨by decide, by decide, by decide⟩

/-! ### Theorem for claim C9 -/

/-- Claim C9: on any settings mapping of the documented shape with at least
one entry, `batch_fix_isatabs` raises `TypeError` (because it indexes the
list value with the string key `factor`) and applies no fix. -/
theorem batch_fix_isatabs_type_error (path : String) (fixes : List FixSetting)
    (rest : List (String × List FixSetting)) :
    batch_fix_isatabs ((path, fixes) :: rest)
      = ([], some "TypeError: list indices must be integers or slices, not str") :=
  rfl

/-! ### Theorem for claim C10 -/

theorem unquoteCell_error_eq (x : String) (e : PyErr)
    (h : unquoteCell x = .error e) : e = .indexError := by
  unfold unquoteCell at h
  split_ifs at h
  exact (Except.error.inj h).symm

theorem unquoteAll_error_eq (l : List String) (e : PyErr)
    (h : unquoteAll l = .error e) : e = .indexError := by
  induction l with
  | nil => exact absurd h (by simp [unquoteAll])
  | cons x t ih =>
      unfold unquoteAll at h
      rcases hx : unquoteCell x with e' | y <;> rw [hx] at h
      · cases h
        exact unquoteCell_error_eq x _ hx
      · rcases ht : unquoteAll t with e' | ys <;> rw [ht] at h
        · cases h
          exact ih ht
        · exact absurd h (by simp)

/-- Claim C10: the guarded `IOError` branch of
`replace_factor_with_protocol_parameter_value` is unreachable: when
`protocol_ref` is absent, `list.index` raises `ValueError` first, and when
it is present the index returned is non-negative, so
`protocol_ref_index < 0` never holds. -/
theorem replace_factor_protocol_guard_no_ioerror
    (line1 protocol_ref : String) :
    replace_factor_protocol_guard line1 protocol_ref
      ≠ Except.error PyErr.ioError := by
  unfold replace_factor_protocol_guard protocol_ref_index_of_line
  rcases hq : unquoteAll (line1.splitOn "\t") with e | cells
  · have he : e = .indexError := unquoteAll_error_eq _ _ hq
    subst he
    simp
  · unfold pyListIndexInt
    rcases hi : pyListIndex cells protocol_ref with _ | n <;> simp only [hi]
    · simp
    · have hnn : ¬ ((n : Int) < 0) := by simp
      simp [hnn]

end IsaUtils
